import Mathlib

/-!
Verification of the time-series analytics core of the repository
(file gsox_vs_benchmarks.py): series alignment, returns, rebasing,
rolling statistics (period return, correlation, beta), excess-return
tables and drawdowns.

Dates are modelled as natural numbers, finite float values as rationals.
Where the Python code can produce IEEE special values (division by zero
in pct_change, rebasing and drawdown), cells are modelled by the type
FVal below, which carries NaN and the two infinities explicitly.
Where a pandas cell is either NaN or an ordinary finite number
(rolling-window statistics with finite inputs), cells are modelled as
Option values, none standing for NaN.
-/

namespace SecuritiesAnalysis

/-- IEEE-style scalar: a finite rational, NaN, or a signed infinity.
Rationals have a single zero, so the sign of a zero denominator is taken
to be positive, as in the NumPy expressions the pipeline evaluates
(all divisions in the source divide by values produced as data, and the
zero arising there is the positive literal 0.0). -/
inductive FVal where
  | val : ℚ → FVal
  | nan : FVal
  | pinf : FVal
  | ninf : FVal
deriving DecidableEq

/-- IEEE division on modelled scalars: finite / finite nonzero is exact,
finite nonzero / zero is a signed infinity, 0 / 0 is NaN. -/
def FVal.div : FVal → FVal → FVal
  | FVal.nan, _ => FVal.nan
  | _, FVal.nan => FVal.nan
  | FVal.val a, FVal.val b =>
      if b = 0 then (if a = 0 then FVal.nan else if 0 < a then FVal.pinf else FVal.ninf)
      else FVal.val (a / b)
  | FVal.pinf, FVal.val b => if 0 ≤ b then FVal.pinf else FVal.ninf
  | FVal.ninf, FVal.val b => if 0 ≤ b then FVal.ninf else FVal.pinf
  | FVal.val _, FVal.pinf => FVal.val 0
  | FVal.val _, FVal.ninf => FVal.val 0
  | _, _ => FVal.nan

/-- IEEE subtraction on modelled scalars. -/
def FVal.sub : FVal → FVal → FVal
  | FVal.nan, _ => FVal.nan
  | _, FVal.nan => FVal.nan
  | FVal.val a, FVal.val b => FVal.val (a - b)
  | FVal.pinf, FVal.pinf => FVal.nan
  | FVal.ninf, FVal.ninf => FVal.nan
  | FVal.pinf, _ => FVal.pinf
  | FVal.ninf, _ => FVal.ninf
  | FVal.val _, FVal.pinf => FVal.ninf
  | FVal.val _, FVal.ninf => FVal.pinf

/-- IEEE multiplication on modelled scalars. -/
def FVal.mul : FVal → FVal → FVal
  | FVal.nan, _ => FVal.nan
  | _, FVal.nan => FVal.nan
  | FVal.val a, FVal.val b => FVal.val (a * b)
  | FVal.pinf, FVal.val b => if 0 < b then FVal.pinf else if b < 0 then FVal.ninf else FVal.nan
  | FVal.val b, FVal.pinf => if 0 < b then FVal.pinf else if b < 0 then FVal.ninf else FVal.nan
  | FVal.ninf, FVal.val b => if 0 < b then FVal.ninf else if b < 0 then FVal.pinf else FVal.nan
  | FVal.val b, FVal.ninf => if 0 < b then FVal.ninf else if b < 0 then FVal.pinf else FVal.nan
  | FVal.pinf, FVal.pinf => FVal.pinf
  | FVal.ninf, FVal.ninf => FVal.pinf
  | FVal.pinf, FVal.ninf => FVal.ninf
  | FVal.ninf, FVal.pinf => FVal.ninf

/-- Pandas isna: only NaN counts as missing; infinities are not missing. -/
def FVal.isNA : FVal → Bool
  | FVal.nan => true
  | _ => false

/-- A dated series: (date, value) pairs; the data-model invariant is that
dates are unique and sorted ascending, but no definition below needs it. -/
abbrev Series := List (Nat × ℚ)

/-- The dates carried by one input series. -/
def seriesDates (s : Series) : List Nat := s.map Prod.fst

/-- The value a series holds at a date, if any (first matching pair, which
is the pandas keep-first policy for duplicated labels). -/
def lookupDate (s : Series) (d : Nat) : Option ℚ := s.lookup d

/-- Union of the dates of all input series, sorted ascending with
duplicates collapsed: the index built by pd.concat(axis=1).sort_index()
followed by dropping duplicated index labels. -/
def unionDates (ss : List Series) : List Nat :=
  List.insertionSort (· ≤ ·) ((ss.flatMap seriesDates).dedup)

/-- One raw column of the concatenated panel: the value of a series at
each index date, NaN (none) where the series has no such date. -/
def rawColumn (ds : List Nat) (s : Series) : List (Option ℚ) :=
  ds.map (lookupDate s)

/-- Forward fill with an explicit carry: a missing cell takes the last
seen value, a present cell updates the carry. -/
def ffillFrom (carry : Option ℚ) : List (Option ℚ) → List (Option ℚ)
  | [] => []
  | none :: rest => carry :: ffillFrom carry rest
  | some v :: rest => some v :: ffillFrom (some v) rest

/-- Pandas ffill on one column. -/
def ffill (c : List (Option ℚ)) : List (Option ℚ) := ffillFrom none c

/-- Pandas bfill on one column: forward fill of the reversed column. -/
def bfill (c : List (Option ℚ)) : List (Option ℚ) :=
  (ffillFrom none c.reverse).reverse

/-- The aligned columns: each input series reindexed onto the union of
dates, forward-filled then backward-filled (lines 236 to 240 of the
source: concat, sort_index, drop duplicated labels, ffill, bfill). -/
def alignColumns (ss : List Series) : List (List (Option ℚ)) :=
  ss.map (fun s => bfill (ffill (rawColumn (unionDates ss) s)))

/-- The aligned panel as rows (date, cells), keeping only the rows in
which every column has a value: the dropna(how=any) of line 241. -/
def alignRows (ss : List Series) : List (Nat × List (Option ℚ)) :=
  ((List.range (unionDates ss).length).map
      (fun i => ((unionDates ss).getD i 0,
        (alignColumns ss).map (fun c => c.getD i none)))).filter
    (fun r => r.2.all Option.isSome)

/-! ## Return / level transforms (lines 132 to 149 and 248 to 251) -/

/-- One cell of pandas pct_change: current / previous - 1, in IEEE
arithmetic (the shift-divide form pandas evaluates). -/
def pctCell (prev cur : ℚ) : FVal :=
  FVal.sub (FVal.div (FVal.val cur) (FVal.val prev)) (FVal.val 1)

/-- Pandas pct_change on one column: the first cell (no prior value) is
NaN, every later cell is current / previous - 1. -/
def pctChangeCol (col : List ℚ) : List FVal :=
  match col with
  | [] => []
  | _ :: _ => FVal.nan :: (col.zip col.tail).map (fun p => pctCell p.1 p.2)

/-- The returns of one aligned column: data.pct_change().dropna() of
line 251, restricted to a single column (dropna removes NaN cells). -/
def returnsCol (col : List ℚ) : List FVal :=
  (pctChangeCol col).filter (fun c => ! c.isNA)

/-- Rebasing of one aligned column, line 248: (s / s.iloc[0]) * 100.0 in
IEEE arithmetic. -/
def rebaseCol (col : List ℚ) : List FVal :=
  col.map (fun v => FVal.mul (FVal.div (FVal.val v) (FVal.val (col.headD 0))) (FVal.val 100))

/-- Running maximum continuing from an already-accumulated peak. -/
def cummaxFrom (m : ℚ) : List ℚ → List ℚ
  | [] => []
  | x :: rest => max m x :: cummaxFrom (max m x) rest

/-- Pandas cummax on a column, line 139. -/
def cummax (l : List ℚ) : List ℚ :=
  match l with
  | [] => []
  | x :: rest => x :: cummaxFrom x rest

/-- Drawdown of a level series, lines 138 to 140:
(levels / levels.cummax()) - 1.0 in IEEE arithmetic. -/
def drawdown (levels : List ℚ) : List FVal :=
  List.zipWith (fun a p => FVal.sub (FVal.div (FVal.val a) (FVal.val p)) (FVal.val 1))
    levels (cummax levels)

/-! ## Rolling statistics (lines 142 to 180)

Rolling cells over finite return inputs are either NaN or finite, so they
are modelled as Option rationals, none standing for NaN.  Pandas uses
min_periods equal to the window, so a cell is NaN until the trailing
window is full; variance and covariance use the ddof = 1 denominator
length - 1, so one-observation windows are NaN as well. -/

/-- The trailing window of length win ending at position t. -/
def windowAt (win : Nat) (xs : List ℚ) (t : Nat) : List ℚ :=
  (xs.take (t + 1)).drop (t + 1 - win)

/-- Mean of a window. -/
def meanW (w : List ℚ) : ℚ := w.sum / (w.length : ℚ)

/-- Sample covariance of two windows (ddof = 1, the pandas default). -/
def covW (w1 w2 : List ℚ) : ℚ :=
  (List.zipWith (fun a b => (a - meanW w1) * (b - meanW w2)) w1 w2).sum / ((w1.length : ℚ) - 1)

/-- Sample variance of a window (ddof = 1, the pandas default). -/
def varW (w : List ℚ) : ℚ :=
  (w.map (fun a => (a - meanW w) ^ 2)).sum / ((w.length : ℚ) - 1)

/-- y_ret.rolling(win).cov(x_ret), line 143: NaN until the window is
full and of length at least two. -/
def rollingCov (y x : List ℚ) (win : Nat) : List (Option ℚ) :=
  (List.range (min y.length x.length)).map (fun t =>
    if 2 ≤ win ∧ win ≤ t + 1 then some (covW (windowAt win y t) (windowAt win x t))
    else none)

/-- x_ret.rolling(win).var(), line 144. -/
def rollingVar (x : List ℚ) (win : Nat) : List (Option ℚ) :=
  (List.range x.length).map (fun t =>
    if 2 ≤ win ∧ win ≤ t + 1 then some (varW (windowAt win x t))
    else none)

/-- Cellwise float division of two rolling results.  NaN operands give
NaN.  Every division-by-zero the pipeline reaches here has a vanishing
numerator (a covariance against a window of zero variance is zero, lemma
covW_eq_zero_of_varW_eq_zero below), so the IEEE result of the zero
denominator case is 0 / 0 = NaN, modelled as none. -/
def divOpt : Option ℚ → Option ℚ → Option ℚ
  | some a, some b => if b = 0 then none else some (a / b)
  | _, _ => none

/-- rolling_beta of lines 142 to 145: cov / var, cellwise. -/
def rolling_beta (y_ret x_ret : List ℚ) (win : Nat) : List (Option ℚ) :=
  List.zipWith divOpt (rollingCov y_ret x_ret win) (rollingVar x_ret win)

/-- One rolling correlation cell is cov / sqrt(vy * vx); square roots
leave the rationals, so a defined cell is recorded as the triple
(cov, vy, vx) it is computed from, and a cell is NaN (none) exactly when
pandas makes it NaN: incomplete window, ddof, or a zero-variance side
(there the numerator also vanishes and the float division is 0 / 0). -/
def rollingCorr (y x : List ℚ) (win : Nat) : List (Option (ℚ × ℚ × ℚ)) :=
  (List.range (min y.length x.length)).map (fun t =>
    if 2 ≤ win ∧ win ≤ t + 1 then
      if varW (windowAt win y t) = 0 ∨ varW (windowAt win x t) = 0 then none
      else some (covW (windowAt win y t) (windowAt win x t),
        varW (windowAt win y t), varW (windowAt win x t))
    else none)

/-- rolling_period_return of lines 147 to 149: product of (1 + r) over
the trailing window, minus 1; NaN until the window is full. -/
def rolling_period_return (returns : List ℚ) (win : Nat) : List (Option ℚ) :=
  (List.range returns.length).map (fun t =>
    if 1 ≤ win ∧ win ≤ t + 1 then
      some (((windowAt win returns t).map (fun r => 1 + r)).prod - 1)
    else none)

/-! ## Metrics assembler (lines 44, 45 and 151 to 180) -/

/-- Module-level rolling window for period returns, line 44. -/
def ROLL_RET_WIN : Nat := 63

/-- Module-level rolling window for correlation and beta, line 45. -/
def ROLL_RISK_WIN : Nat := 126

/-- Float subtraction of two rolling cells: NaN propagates. -/
def omSub : Option ℚ → Option ℚ → Option ℚ
  | some a, some b => some (a - b)
  | _, _ => none

/-- The excess-return table of lines 165 to 168: the two difference
columns, each row tagged with its date position, then
dropna(how=all). -/
def excess_df (rA ra rb : List (Option ℚ)) : List (Nat × Option ℚ × Option ℚ) :=
  (((rA.zip (ra.zip rb)).map
      (fun x => (omSub x.1 x.2.1, omSub x.1 x.2.2))).enum).filter
    (fun r => r.2.1.isSome || r.2.2.isSome)

/-- The correlation table of lines 170 to 173, rows tagged with the
date position, dropna(how=all). -/
def corr_df (cA ca cb : List ℚ) (win : Nat) :
    List (Nat × Option (ℚ × ℚ × ℚ) × Option (ℚ × ℚ × ℚ)) :=
  (((rollingCorr cA ca win).zip (rollingCorr cA cb win)).enum).filter
    (fun r => r.2.1.isSome || r.2.2.isSome)

/-- The beta table of lines 175 to 178, rows tagged with the date
position, dropna(how=all). -/
def beta_df (cA ca cb : List ℚ) (win : Nat) :
    List (Nat × Option ℚ × Option ℚ) :=
  (((rolling_beta cA ca win).zip (rolling_beta cA cb win)).enum).filter
    (fun r => r.2.1.isSome || r.2.2.isSome)

/-- The three tables returned by compute_pairwise_metrics. -/
structure PairwiseMetrics where
  excess : List (Nat × Option ℚ × Option ℚ)
  corr : List (Nat × Option (ℚ × ℚ × ℚ) × Option (ℚ × ℚ × ℚ))
  beta : List (Nat × Option ℚ × Option ℚ)
deriving DecidableEq

/-- The column of a returns frame for a symbol. -/
def retsCol (rets : List (String × List ℚ)) (sym : String) : List ℚ :=
  (rets.lookup sym).getD []

/-- compute_pairwise_metrics of lines 151 to 180: the windows are the
module-level constants ROLL_RET_WIN and ROLL_RISK_WIN; the function has
no window parameters. -/
def compute_pairwise_metrics (rets : List (String × List ℚ))
    (asset bench_a bench_b : String) : PairwiseMetrics :=
  { excess := excess_df
      (rolling_period_return (retsCol rets asset) ROLL_RET_WIN)
      (rolling_period_return (retsCol rets bench_a) ROLL_RET_WIN)
      (rolling_period_return (retsCol rets bench_b) ROLL_RET_WIN)
    corr := corr_df (retsCol rets asset) (retsCol rets bench_a)
      (retsCol rets bench_b) ROLL_RISK_WIN
    beta := beta_df (retsCol rets asset) (retsCol rets bench_a)
      (retsCol rets bench_b) ROLL_RISK_WIN }

/-- Modelled from the spec: the metrics assembly of sections 4.3, 4.5
and 9 of the specification, with the two window sizes W_ret and W_risk
taken as explicit per-call parameters instead of module constants. -/
def computePairwiseMetricsSpec (wret wrisk : Nat)
    (rets : List (String × List ℚ)) (asset bench_a bench_b : String) :
    PairwiseMetrics :=
  { excess := excess_df
      (rolling_period_return (retsCol rets asset) wret)
      (rolling_period_return (retsCol rets bench_a) wret)
      (rolling_period_return (retsCol rets bench_b) wret)
    corr := corr_df (retsCol rets asset) (retsCol rets bench_a)
      (retsCol rets bench_b) wrisk
    beta := beta_df (retsCol rets asset) (retsCol rets bench_a)
      (retsCol rets bench_b) wrisk }

/-! ## Input screening of main, lines 220 to 234 -/

/-- The series main can actually use for a ticker: none when the ticker
is absent from the fetched mapping, maps to a null frame, or maps to an
empty frame (the three skip conditions of line 221). -/
def usableSeries (raw : List (String × Option Series)) (t : String) : Option Series :=
  match raw.lookup t with
  | some (some s) => if s.isEmpty then none else some s
  | _ => none

/-- The warning printed for a skipped ticker, line 222. -/
def warnMsg (t : String) : String :=
  "Warning: No data returned for " ++ t ++ ". Skipping."

/-- The fatal message of line 234. -/
def noDataMsg : String := "No data available for any ticker."

/-- The screening loop of lines 220 to 234: collect the usable series,
record a warning for every skipped ticker, and fail only when nothing
at all was usable. -/
def buildPanelInput (tickers : List String) (raw : List (String × Option Series)) :
    List String × Except String (List (String × Series)) :=
  let good := tickers.filterMap (fun t => (usableSeries raw t).map (fun s => (t, s)))
  let warns := (tickers.filter (fun t => (usableSeries raw t).isNone)).map warnMsg
  (warns, if good.isEmpty then Except.error noDataMsg else Except.ok good)

/-! ## Helper lemmas -/

lemma list_prod_range (f : Nat → ℚ) (n : Nat) :
    ((List.range n).map f).prod = ∏ i ∈ Finset.range n, f i := by
  induction n with
  | zero => simp
  | succ n ih =>
      rw [List.range_succ, List.map_append, List.prod_append, Finset.prod_range_succ, ih]
      simp

lemma windowAt_eq_map_range (win : Nat) (xs : List ℚ) (t : Nat)
    (h1 : win ≤ t + 1) (h2 : t < xs.length) :
    windowAt win xs t = (List.range win).map (fun j => xs.getD (t + 1 - win + j) 0) := by
  apply List.ext_getElem
  · simp [windowAt]
    omega
  · intro i hi1 hi2
    have hlen : i < win := by simpa using hi2
    have hidx : t + 1 - win + i < xs.length := by omega
    simp only [windowAt, List.getElem_drop, List.getElem_take, List.getElem_map,
      List.getElem_range]
    rw [List.getD_eq_getElem _ _ hidx]

lemma window_prod_eq_Icc (win : Nat) (xs : List ℚ) (t : Nat)
    (h1 : win ≤ t + 1) (h2 : t < xs.length) :
    ((windowAt win xs t).map (fun r => 1 + r)).prod =
      ∏ i ∈ Finset.Icc (t + 1 - win) t, (1 + xs.getD i 0) := by
  rw [windowAt_eq_map_range win xs t h1 h2, List.map_map, list_prod_range]
  rw [← Nat.Ico_succ_right, Finset.prod_Ico_eq_prod_range]
  have : t + 1 - (t + 1 - win) = win := by omega
  rw [this]
  rfl

/-- C2: the rolling period return at position t is the product of
(1 + r) over the trailing win observations ending at t, minus 1; the
first win - 1 cells are missing (not zero), and the cell at position
win - 1 is the first defined one. -/
theorem rolling_period_return_spec (rs : List ℚ) (win : Nat)
    (h1 : 1 ≤ win) (h2 : win ≤ rs.length) :
    (rolling_period_return rs win).length = rs.length ∧
    (∀ t, t + 1 < win → (rolling_period_return rs win).getD t (some 0) = none) ∧
    (∀ t, win ≤ t + 1 → t < rs.length →
      (rolling_period_return rs win).getD t none =
        some ((∏ i ∈ Finset.Icc (t + 1 - win) t, (1 + rs.getD i 0)) - 1)) ∧
    ((rolling_period_return rs win).getD (win - 1) none).isSome = true := by
  have hlen : (rolling_period_return rs win).length = rs.length := by
    simp [rolling_period_return]
  refine ⟨hlen, ?_, ?_, ?_⟩
  · intro t ht
    have htl : t < rs.length := by omega
    have htl2 : t < (rolling_period_return rs win).length := by omega
    rw [List.getD_eq_getElem _ _ htl2]
    simp only [rolling_period_return, List.getElem_map, List.getElem_range]
    rw [if_neg (by omega)]
  · intro t ht htl
    have htl2 : t < (rolling_period_return rs win).length := by omega
    rw [List.getD_eq_getElem _ _ htl2]
    simp only [rolling_period_return, List.getElem_map, List.getElem_range]
    rw [if_pos ⟨h1, ht⟩, window_prod_eq_Icc win rs t ht htl]
  · have hw : win - 1 < (rolling_period_return rs win).length := by omega
    rw [List.getD_eq_getElem _ _ hw]
    simp only [rolling_period_return, List.getElem_map, List.getElem_range]
    rw [if_pos (by omega : 1 ≤ win ∧ win ≤ win - 1 + 1)]
    rfl

/-- Witness for C2 at the concrete series [1, 2, 3] with window 2. -/
theorem rolling_period_return_spec_witness :
    (rolling_period_return [1, 2, 3] 2).getD 0 (some 0) = none ∧
    (rolling_period_return [1, 2, 3] 2).getD 1 none = some 5 := by
  have h := rolling_period_return_spec [1, 2, 3] 2 (by norm_num) (by norm_num)
  refine ⟨h.2.1 0 (by norm_num), ?_⟩
  have h3 := h.2.2.1 1 (by norm_num) (by norm_num)
  rw [h3, show (1 : Nat) = 0 + 1 from rfl, Finset.prod_Icc_succ_top (Nat.zero_le 1),
    Finset.Icc_self, Finset.prod_singleton]
  norm_num [List.getD_cons_zero, List.getD_cons_succ]

lemma sum_sq_nonneg (m : ℚ) (l : List ℚ) :
    0 ≤ (l.map (fun a => (a - m) ^ 2)).sum := by
  induction l with
  | nil => simp
  | cons x rest ih =>
      simp only [List.map_cons, List.sum_cons]
      exact add_nonneg (sq_nonneg _) ih

lemma dev_eq_zero_of_sum_sq_eq_zero (m : ℚ) (l : List ℚ)
    (h : (l.map (fun a => (a - m) ^ 2)).sum = 0) : ∀ b ∈ l, b = m := by
  induction l with
  | nil => simp
  | cons x rest ih =>
      simp only [List.map_cons, List.sum_cons] at h
      have h1 : (0 : ℚ) ≤ (x - m) ^ 2 := sq_nonneg _
      have h2 : 0 ≤ (rest.map (fun a => (a - m) ^ 2)).sum := sum_sq_nonneg m rest
      have hx : (x - m) ^ 2 = 0 := by linarith
      have hr : (rest.map (fun a => (a - m) ^ 2)).sum = 0 := by linarith
      intro b hb
      rcases List.mem_cons.mp hb with rfl | hb2
      · have := (pow_eq_zero_iff two_ne_zero).mp hx
        linarith
      · exact ih hr b hb2

lemma zipWith_dev_sum_zero (m1 m2 : ℚ) (l1 l2 : List ℚ) (h : ∀ b ∈ l2, b = m2) :
    (List.zipWith (fun a b => (a - m1) * (b - m2)) l1 l2).sum = 0 := by
  induction l1 generalizing l2 with
  | nil => simp
  | cons x rest ih =>
      cases l2 with
      | nil => simp
      | cons y l2t =>
          have hy : y = m2 := h y (List.mem_cons_self y l2t)
          simp only [List.zipWith_cons_cons, List.sum_cons, hy, sub_self, mul_zero, zero_add]
          exact ih l2t (fun b hb => h b (List.mem_cons_of_mem y hb))

/-- A covariance against a window of zero sample variance is itself
zero: this is why the float division in rolling_beta never divides a
nonzero quantity by zero, and the zero-variance case is 0 / 0 = NaN. -/
lemma covW_eq_zero_of_varW_eq_zero (w1 w2 : List ℚ) (h : w2.length ≠ 1)
    (hv : varW w2 = 0) : covW w1 w2 = 0 := by
  rcases Nat.eq_zero_or_pos w2.length with h0 | hpos
  · rw [List.length_eq_zero] at h0
    subst h0
    simp [covW]
  · have hne : ((w2.length : ℚ) - 1) ≠ 0 := by
      have : 2 ≤ w2.length := by omega
      have : (2 : ℚ) ≤ (w2.length : ℚ) := by exact_mod_cast this
      linarith
    have hsum : (w2.map (fun a => (a - meanW w2) ^ 2)).sum = 0 := by
      have := hv
      unfold varW at this
      exact (div_eq_zero_iff.mp this).resolve_right hne
    have hdev := dev_eq_zero_of_sum_sq_eq_zero (meanW w2) w2 hsum
    unfold covW
    rw [zipWith_dev_sum_zero (meanW w1) (meanW w2) w1 w2 hdev, zero_div]

lemma covW_self (w : List ℚ) : covW w w = varW w := by
  unfold covW varW
  rw [List.zipWith_same]
  congr 1
  apply congrArg
  apply List.map_congr_left
  intro a _
  ring

lemma rolling_beta_length (y x : List ℚ) (win : Nat) :
    (rolling_beta y x win).length = min y.length x.length := by
  simp [rolling_beta, rollingCov, rollingVar]

lemma rolling_beta_cell (y x : List ℚ) (win t : Nat)
    (hy : t < y.length) (hx : t < x.length) :
    (rolling_beta y x win).getD t none =
      if 2 ≤ win ∧ win ≤ t + 1 then
        (if varW (windowAt win x t) = 0 then none
         else some (covW (windowAt win y t) (windowAt win x t) / varW (windowAt win x t)))
      else none := by
  have hlen : t < (rolling_beta y x win).length := by
    rw [rolling_beta_length]
    omega
  rw [List.getD_eq_getElem _ _ hlen]
  simp only [rolling_beta, List.getElem_zipWith, rollingCov, rollingVar,
    List.getElem_map, List.getElem_range]
  by_cases hc : 2 ≤ win ∧ win ≤ t + 1
  · rw [if_pos hc, if_pos hc, if_pos hc]
    simp [divOpt]
  · rw [if_neg hc, if_neg hc, if_neg hc]
    rfl

lemma rollingCorr_cell (y x : List ℚ) (win t : Nat)
    (hy : t < y.length) (hx : t < x.length) :
    (rollingCorr y x win).getD t none =
      if 2 ≤ win ∧ win ≤ t + 1 then
        (if varW (windowAt win y t) = 0 ∨ varW (windowAt win x t) = 0 then none
         else some (covW (windowAt win y t) (windowAt win x t),
           varW (windowAt win y t), varW (windowAt win x t)))
      else none := by
  have hlen : t < (rollingCorr y x win).length := by
    simp [rollingCorr]
    omega
  rw [List.getD_eq_getElem _ _ hlen]
  simp only [rollingCorr, List.getElem_map, List.getElem_range]

/-- C3: in a window where the benchmark return series has zero sample
variance, the rolling beta cell and the rolling correlation cell are
missing values (none, never a fault and never zero), while every other
full window with nonzero benchmark variance still gets its cov / var
value. -/
theorem beta_corr_zero_variance (y x : List ℚ) (win t : Nat)
    (hwin : 2 ≤ win) (ht : win ≤ t + 1) (hty : t < y.length) (htx : t < x.length)
    (hv : varW (windowAt win x t) = 0) :
    (rolling_beta y x win).getD t none = none ∧
    (rollingCorr y x win).getD t none = none ∧
    (∀ s, s < y.length → s < x.length → win ≤ s + 1 →
      varW (windowAt win x s) ≠ 0 →
      (rolling_beta y x win).getD s none =
        some (covW (windowAt win y s) (windowAt win x s) / varW (windowAt win x s))) := by
  refine ⟨?_, ?_, ?_⟩
  · rw [rolling_beta_cell y x win t hty htx, if_pos ⟨hwin, ht⟩, if_pos hv]
  · rw [rollingCorr_cell y x win t hty htx, if_pos ⟨hwin, ht⟩,
      if_pos (Or.inr hv)]
  · intro s hsy hsx hs hvs
    rw [rolling_beta_cell y x win s hsy hsx, if_pos ⟨hwin, hs⟩, if_neg hvs]

/-- Witness for C3: benchmark [1, 1, 2] is flat on the first 2-day
window, so beta and correlation against it are missing there, while the
next window is still computed. -/
theorem beta_corr_zero_variance_witness :
    (rolling_beta [1, 2, 3] [1, 1, 2] 2).getD 1 none = none ∧
    (rollingCorr [1, 2, 3] [1, 1, 2] 2).getD 1 none = none ∧
    (rolling_beta [1, 2, 3] [1, 1, 2] 2).getD 2 none = some 1 := by
  have hv : varW (windowAt 2 [1, 1, 2] 1) = 0 := by
    norm_num [windowAt, varW, meanW]
  have h := beta_corr_zero_variance [1, 2, 3] [1, 1, 2] 2 1
    (by norm_num) (by norm_num) (by norm_num) (by norm_num) hv
  refine ⟨h.1, h.2.1, ?_⟩
  have h2 := h.2.2 2 (by norm_num) (by norm_num) (by norm_num)
    (by norm_num [windowAt, varW, meanW])
  rw [h2]
  norm_num [windowAt, covW, varW, meanW]

/-- C10: wherever the rolling beta of a series against itself is
defined, its value is exactly 1. -/
theorem beta_identity (y : List ℚ) (win t : Nat) (q : ℚ)
    (h : (rolling_beta y y win).getD t none = some q) : q = 1 := by
  by_cases hty : t < y.length
  · rw [rolling_beta_cell y y win t hty hty] at h
    by_cases hc : 2 ≤ win ∧ win ≤ t + 1
    · rw [if_pos hc] at h
      by_cases hv : varW (windowAt win y t) = 0
      · rw [if_pos hv] at h
        exact absurd h (by simp)
      · rw [if_neg hv, covW_self] at h
        rw [div_self hv] at h
        exact (Option.some_inj.mp h).symm
    · rw [if_neg hc] at h
      exact absurd h (by simp)
  · have : (rolling_beta y y win).getD t none = none := by
      apply List.getD_eq_default
      rw [rolling_beta_length]
      omega
    rw [this] at h
    exact absurd h (by simp)

/-- Witness for C10 at the series [0, 1] with window 2. -/
theorem beta_identity_witness :
    (rolling_beta [0, 1] [0, 1] 2).getD 1 none = some 1 ∧ (1 : ℚ) = 1 := by
  have h : (rolling_beta [0, 1] [0, 1] 2).getD 1 none = some 1 := by
    norm_num [rolling_beta, rollingCov, rollingVar, windowAt, covW, varW, meanW, divOpt,
      show List.range 2 = [0, 1] from rfl]
  exact ⟨h, beta_identity [0, 1] 2 1 1 h⟩

lemma FVal.div_val_val (a b : ℚ) (hb : b ≠ 0) :
    FVal.div (FVal.val a) (FVal.val b) = FVal.val (a / b) := by
  simp [FVal.div, hb]

lemma FVal.sub_val_val (a b : ℚ) :
    FVal.sub (FVal.val a) (FVal.val b) = FVal.val (a - b) := rfl

lemma cummaxFrom_length (m : ℚ) (l : List ℚ) :
    (cummaxFrom m l).length = l.length := by
  induction l generalizing m with
  | nil => simp [cummaxFrom]
  | cons x rest ih => simp [cummaxFrom, ih]

lemma cummax_length (l : List ℚ) : (cummax l).length = l.length := by
  cases l with
  | nil => simp [cummax]
  | cons x rest => simp [cummax, cummaxFrom_length]

lemma cummaxFrom_ge_carry (m : ℚ) (l : List ℚ) (t : Nat) (ht : t < l.length) :
    m ≤ (cummaxFrom m l).getD t 0 := by
  induction l generalizing m t with
  | nil => simp at ht
  | cons x rest ih =>
      cases t with
      | zero =>
          simp only [cummaxFrom, List.getD_cons_zero]
          exact le_max_left m x
      | succ n =>
          simp only [cummaxFrom, List.getD_cons_succ]
          exact le_trans (le_max_left m x) (ih (max m x) n (by simpa using ht))

lemma cummaxFrom_ge_elem (m : ℚ) (l : List ℚ) (t : Nat) (ht : t < l.length) :
    l.getD t 0 ≤ (cummaxFrom m l).getD t 0 := by
  induction l generalizing m t with
  | nil => simp at ht
  | cons x rest ih =>
      cases t with
      | zero =>
          simp only [cummaxFrom, List.getD_cons_zero]
          exact le_max_right m x
      | succ n =>
          simp only [cummaxFrom, List.getD_cons_succ]
          exact ih (max m x) n (by simpa using ht)

lemma cummax_ge_head (x : ℚ) (rest : List ℚ) (t : Nat)
    (ht : t < (x :: rest).length) :
    x ≤ (cummax (x :: rest)).getD t 0 := by
  cases t with
  | zero => simp [cummax]
  | succ n =>
      simp only [cummax, List.getD_cons_succ]
      exact cummaxFrom_ge_carry x rest n (by simpa using ht)

lemma cummax_ge_elem (l : List ℚ) (t : Nat) (ht : t < l.length) :
    l.getD t 0 ≤ (cummax l).getD t 0 := by
  cases l with
  | nil => simp at ht
  | cons x rest =>
      cases t with
      | zero => simp [cummax]
      | succ n =>
          simp only [cummax, List.getD_cons_succ]
          exact cummaxFrom_ge_elem x rest n (by simpa using ht)

lemma drawdown_cell (l : List ℚ) (t : Nat) (ht : t < l.length) :
    (drawdown l).getD t FVal.nan =
      FVal.sub (FVal.div (FVal.val (l.getD t 0)) (FVal.val ((cummax l).getD t 0)))
        (FVal.val 1) := by
  have hlen : t < (drawdown l).length := by
    simp [drawdown, cummax_length]
    omega
  rw [List.getD_eq_getElem _ _ hlen]
  have htc : t < (cummax l).length := by rw [cummax_length]; omega
  simp only [drawdown, List.getElem_zipWith]
  rw [List.getD_eq_getElem _ _ ht, List.getD_eq_getElem _ _ htc]

/-- Counterexample to C7 as stated: on the all-negative level series
[-5, -10], the drawdown at the second date is +1, which is not ≤ 0 (the
running peak is negative, so the ratio comparison flips). -/
theorem drawdown_counterexample :
    drawdown [-5, -10] = [FVal.val 0, FVal.val 1] ∧ ¬ ((1 : ℚ) ≤ 0) := by
  constructor
  · norm_num [drawdown, cummax, cummaxFrom, FVal.div, FVal.sub]
  · norm_num

/-- C7 amended: for every level series whose first value is positive
(every rebased series starts at 100), the drawdown computed from the
running peak is defined with a finite value at every date with no
warm-up, that value is ≤ 0, and it is 0 whenever the level equals the
running maximum. -/
theorem drawdown_amended (l : List ℚ) (h : 0 < l.headD 1) :
    (drawdown l).length = l.length ∧
    (∀ t, t < l.length → ∃ q : ℚ,
      (drawdown l).getD t FVal.nan = FVal.val q ∧ q ≤ 0 ∧
      (l.getD t 0 = (cummax l).getD t 0 → q = 0)) := by
  constructor
  · simp [drawdown, cummax_length]
  · intro t ht
    have hpk : 0 < (cummax l).getD t 0 := by
      cases l with
      | nil => simp at ht
      | cons x rest =>
          have hx : (0 : ℚ) < x := by simpa using h
          exact lt_of_lt_of_le hx (cummax_ge_head x rest t ht)
    have hle : l.getD t 0 ≤ (cummax l).getD t 0 := cummax_ge_elem l t ht
    refine ⟨l.getD t 0 / (cummax l).getD t 0 - 1, ?_, ?_, ?_⟩
    · rw [drawdown_cell l t ht, FVal.div_val_val _ _ (ne_of_gt hpk), FVal.sub_val_val]
    · have : l.getD t 0 / (cummax l).getD t 0 ≤ 1 := by
        rw [div_le_one hpk]
        exact hle
      linarith
    · intro heq
      rw [heq, div_self (ne_of_gt hpk)]
      ring

/-- Witness for C7 at the concrete level series [100, 110, 99]. -/
theorem drawdown_amended_witness :
    (0 : ℚ) < ([100, 110, 99] : List ℚ).headD 1 ∧
    ((drawdown [100, 110, 99]).length = 3 ∧
      ∃ q : ℚ, (drawdown [100, 110, 99]).getD 2 FVal.nan = FVal.val q ∧ q ≤ 0) := by
  have h0 : (0 : ℚ) < ([100, 110, 99] : List ℚ).headD 1 := by norm_num
  have h := drawdown_amended [100, 110, 99] h0
  refine ⟨h0, by simpa using h.1, ?_⟩
  obtain ⟨q, hq1, hq2, _⟩ := h.2 2 (by norm_num)
  exact ⟨q, hq1, hq2⟩

lemma FVal.mul_val_val (a b : ℚ) :
    FVal.mul (FVal.val a) (FVal.val b) = FVal.val (a * b) := rfl

/-- Counterexample to C8 as stated: a column whose first value is 0
rebases to NaN at the first date (0 / 0), not to 100; the second cell
becomes +infinity, not a missing value. -/
theorem rebase_counterexample :
    rebaseCol [0, 1] = [FVal.nan, FVal.pinf] ∧ FVal.nan ≠ FVal.val 100 := by
  constructor
  · norm_num [rebaseCol, FVal.div, FVal.mul]
  · intro h
    exact FVal.noConfusion h

/-- C8 amended: for every aligned panel column whose first value is
nonzero, rebasing divides each value by the first value and multiplies
by 100, and the first rebased value is exactly 100. -/
theorem rebase_amended (col : List ℚ) (h : col.headD 0 ≠ 0) :
    (rebaseCol col).length = col.length ∧
    (∀ t, t < col.length →
      (rebaseCol col).getD t FVal.nan = FVal.val (col.getD t 0 / col.headD 0 * 100)) ∧
    (rebaseCol col).headD FVal.nan = FVal.val 100 := by
  have hcell : ∀ t, t < col.length →
      (rebaseCol col).getD t FVal.nan = FVal.val (col.getD t 0 / col.headD 0 * 100) := by
    intro t ht
    have hlen : t < (rebaseCol col).length := by simpa [rebaseCol] using ht
    rw [List.getD_eq_getElem _ _ hlen]
    simp only [rebaseCol, List.getElem_map]
    rw [FVal.div_val_val _ _ h, FVal.mul_val_val, List.getD_eq_getElem _ _ ht]
  refine ⟨by simp [rebaseCol], hcell, ?_⟩
  cases col with
  | nil => simp at h
  | cons x rest =>
      have h0 := hcell 0 (by simp)
      simp only [List.getD_cons_zero, List.headD_cons] at h0
      have hx : x ≠ 0 := by simpa using h
      rw [show (rebaseCol (x :: rest)).headD FVal.nan =
          (rebaseCol (x :: rest)).getD 0 FVal.nan from rfl, h0, div_self hx, one_mul]

/-- Witness for C8 at the concrete column [50, 60]. -/
theorem rebase_amended_witness :
    (([50, 60] : List ℚ).headD 0 ≠ 0) ∧
    (rebaseCol [50, 60]).headD FVal.nan = FVal.val 100 ∧
    (rebaseCol [50, 60]).getD 1 FVal.nan = FVal.val 120 := by
  have h0 : (([50, 60] : List ℚ).headD 0 ≠ 0) := by norm_num
  have h := rebase_amended [50, 60] h0
  refine ⟨h0, h.2.2, ?_⟩
  have h1 := h.2.1 1 (by norm_num)
  rw [h1]
  norm_num

/-- Counterexample to C5 as stated: when the prior value is 0 and the
current value is nonzero, the pct_change cell is +infinity, which is
not a missing value and survives dropna. -/
theorem pct_change_zero_prior_counterexample :
    returnsCol [0, 1] = [FVal.pinf] ∧ FVal.pinf.isNA = false := by
  constructor
  · norm_num [returnsCol, pctChangeCol, pctCell, FVal.div, FVal.sub, FVal.isNA,
      List.filter]
  · rfl

/-- C5 amended: on a column with no zero values, the derived return at
date t is (v[t] - v[t-1]) / v[t-1] and the first row is dropped; where
the prior value is exactly 0 the cell is missing (NaN, dropped by
dropna) only when the current value is also 0, and otherwise is a
signed infinity, a non-missing value that is kept. -/
theorem pct_change_amended (col : List ℚ) (h : ∀ v ∈ col, v ≠ 0) :
    (returnsCol col).length = col.length - 1 ∧
    (∀ t, t + 1 < col.length →
      (returnsCol col).getD t FVal.nan =
        FVal.val ((col.getD (t + 1) 0 - col.getD t 0) / col.getD t 0)) ∧
    (∀ cur : ℚ, pctCell 0 cur =
      (if cur = 0 then FVal.nan else if 0 < cur then FVal.pinf else FVal.ninf)) := by
  have hmap : ∀ p ∈ col.zip col.tail, pctCell p.1 p.2 = FVal.val (p.2 / p.1 - 1) := by
    intro p hp
    have hp1 : p.1 ∈ col := (List.of_mem_zip (by simpa using hp)).1
    have hne : p.1 ≠ 0 := h p.1 hp1
    unfold pctCell
    rw [FVal.div_val_val _ _ hne, FVal.sub_val_val]
  have hret : returnsCol col = (col.zip col.tail).map (fun p => FVal.val (p.2 / p.1 - 1)) := by
    cases col with
    | nil => simp [returnsCol, pctChangeCol]
    | cons x rest =>
        unfold returnsCol pctChangeCol
        rw [List.map_congr_left hmap]
        rw [List.filter_cons_of_neg (by simp [FVal.isNA])]
        apply List.filter_eq_self.mpr
        intro a ha
        obtain ⟨p, _, rfl⟩ := List.mem_map.mp ha
        simp [FVal.isNA]
  have hlen : (returnsCol col).length = col.length - 1 := by
    rw [hret]
    simp [List.length_zip]
  refine ⟨hlen, ?_, ?_⟩
  · intro t ht
    have ht1 : t < col.length := by omega
    rw [hret]
    have htz : t < (col.zip col.tail).length := by
      simp [List.length_zip]
      omega
    have htm : t < ((col.zip col.tail).map (fun p => FVal.val (p.2 / p.1 - 1))).length := by
      simpa using htz
    rw [List.getD_eq_getElem _ _ htm]
    simp only [List.getElem_map, List.getElem_zip, List.getElem_tail]
    have hne : col[t] ≠ 0 := h _ (List.getElem_mem ht1)
    rw [List.getD_eq_getElem _ _ ht, List.getD_eq_getElem _ _ ht1]
    rw [sub_div, div_self hne]
  · intro cur
    by_cases hc : cur = 0
    · subst hc
      simp [pctCell, FVal.div, FVal.sub]
    · by_cases hpos : 0 < cur
      · simp [pctCell, FVal.div, FVal.sub, hc, hpos]
      · simp [pctCell, FVal.div, FVal.sub, hc, hpos]

/-- Witness for C5 at the concrete column [2, 3, 2]. -/
theorem pct_change_amended_witness :
    (∀ v ∈ ([2, 3, 2] : List ℚ), v ≠ 0) ∧
    (returnsCol [2, 3, 2]).length = 2 ∧
    (returnsCol [2, 3, 2]).getD 0 FVal.nan = FVal.val (1 / 2) := by
  have h0 : ∀ v ∈ ([2, 3, 2] : List ℚ), v ≠ 0 := by norm_num
  have h := pct_change_amended [2, 3, 2] h0
  refine ⟨h0, by simpa using h.1, ?_⟩
  have h1 := h.2.1 0 (by norm_num)
  rw [h1]
  norm_num

lemma ffillFrom_length (carry : Option ℚ) (c : List (Option ℚ)) :
    (ffillFrom carry c).length = c.length := by
  induction c generalizing carry with
  | nil => simp [ffillFrom]
  | cons x rest ih =>
      cases x with
      | none => simp [ffillFrom, ih]
      | some v => simp [ffillFrom, ih]

lemma ffill_length (c : List (Option ℚ)) : (ffill c).length = c.length := by
  simp [ffill, ffillFrom_length]

lemma bfill_length (c : List (Option ℚ)) : (bfill c).length = c.length := by
  simp [bfill, ffillFrom_length]

lemma map_getD_range {α : Type} (l : List α) (d : α) :
    (List.range l.length).map (fun i => l.getD i d) = l := by
  apply List.ext_getElem
  · simp
  · intro i h1 h2
    simp only [List.getElem_map, List.getElem_range]
    rw [List.getD_eq_getElem _ _ h2]

lemma unionDates_pairwise_lt (ss : List Series) :
    (unionDates ss).Pairwise (· < ·) := by
  have hs : (unionDates ss).Sorted (· ≤ ·) := List.sorted_insertionSort _ _
  have hn : (unionDates ss).Nodup :=
    ((List.perm_insertionSort (· ≤ ·) ((ss.flatMap seriesDates).dedup)).nodup_iff).mpr
      (List.nodup_dedup _)
  exact (hs.and hn).imp (fun hab => lt_of_le_of_ne hab.1 hab.2)

lemma alignColumns_lengths (ss : List Series) :
    ∀ c ∈ alignColumns ss, c.length = (unionDates ss).length := by
  intro c hc
  obtain ⟨s, _, rfl⟩ := List.mem_map.mp hc
  simp [bfill_length, ffill_length, rawColumn]

/-- C1: for every non-empty family of input series, the aligned panel
has a strictly increasing date index (the sorted union of input dates
with duplicates collapsed), all aligned columns have the same length as
that index, and every retained row carries one defined cell per input
series with no missing cells. -/
theorem align_complete (ss : List Series) (_h : ss ≠ []) :
    ((alignRows ss).map Prod.fst).Pairwise (· < ·) ∧
    (∀ c ∈ alignColumns ss, c.length = (unionDates ss).length) ∧
    (∀ r ∈ alignRows ss, r.2.length = ss.length ∧ ∀ v ∈ r.2, v.isSome = true) := by
  refine ⟨?_, alignColumns_lengths ss, ?_⟩
  · have hsub : (alignRows ss).Sublist
        ((List.range (unionDates ss).length).map
          (fun i => ((unionDates ss).getD i 0,
            (alignColumns ss).map (fun c => c.getD i none)))) :=
      List.filter_sublist _
    have hmapsub := hsub.map Prod.fst
    have hfst : ((List.range (unionDates ss).length).map
        (fun i => ((unionDates ss).getD i 0,
          (alignColumns ss).map (fun c => c.getD i none)))).map Prod.fst =
        unionDates ss := by
      rw [List.map_map]
      exact map_getD_range (unionDates ss) 0
    rw [hfst] at hmapsub
    exact (unionDates_pairwise_lt ss).sublist hmapsub
  · intro r hr
    have hall := List.of_mem_filter hr
    have hmem := List.mem_of_mem_filter hr
    obtain ⟨i, _, rfl⟩ := List.mem_map.mp hmem
    refine ⟨by simp [alignColumns], ?_⟩
    intro v hv
    exact List.all_eq_true.mp hall v hv

/-- Witness for C1 on two concrete series with disjoint calendars. -/
theorem align_complete_witness :
    ([[(1, (5 : ℚ)), (3, 6)], [(2, 7)]] : List Series) ≠ [] ∧
    (∀ r ∈ alignRows [[(1, (5 : ℚ)), (3, 6)], [(2, 7)]],
      r.2.length = 2 ∧ ∀ v ∈ r.2, v.isSome = true) := by
  have h := align_complete [[(1, (5 : ℚ)), (3, 6)], [(2, 7)]] (by simp)
  exact ⟨by simp, fun r hr => h.2.2 r hr⟩

/-- C4: a row of the excess table is published exactly when at least one
of its benchmark cells is defined (dropna with how = all); each cell is
the asset rolling period return minus the benchmark rolling period
return at the same date position; a cell is missing exactly when either
side is missing. -/
theorem excess_table_spec (rA ra rb : List (Option ℚ))
    (ha : ra.length = rA.length) (hb : rb.length = rA.length)
    (t : Nat) (ht : t < rA.length) :
    ((t, omSub (rA.getD t none) (ra.getD t none),
        omSub (rA.getD t none) (rb.getD t none)) ∈ excess_df rA ra rb ↔
      ((omSub (rA.getD t none) (ra.getD t none)).isSome = true ∨
        (omSub (rA.getD t none) (rb.getD t none)).isSome = true)) ∧
    (∀ u v : Option ℚ, omSub u v = none ↔ u = none ∨ v = none) ∧
    (∀ a b : ℚ, omSub (some a) (some b) = some (a - b)) := by
  have hta : t < ra.length := by omega
  have htb : t < rb.length := by omega
  have htz : t < (rA.zip (ra.zip rb)).length := by
    simp [List.length_zip]
    omega
  have hLt : t < ((rA.zip (ra.zip rb)).map
      (fun x => (omSub x.1 x.2.1, omSub x.1 x.2.2))).length := by
    simpa using htz
  have hget : ((rA.zip (ra.zip rb)).map
      (fun x => (omSub x.1 x.2.1, omSub x.1 x.2.2)))[t]? =
      some (omSub (rA.getD t none) (ra.getD t none),
        omSub (rA.getD t none) (rb.getD t none)) := by
    rw [List.getElem?_eq_getElem hLt]
    simp only [List.getElem_map, List.getElem_zip]
    rw [List.getD_eq_getElem _ _ ht, List.getD_eq_getElem _ _ hta,
      List.getD_eq_getElem _ _ htb]
  refine ⟨?_, ?_, fun a b => rfl⟩
  · unfold excess_df
    rw [List.mem_filter]
    constructor
    · rintro ⟨_, hp⟩
      simpa using hp
    · intro hp
      exact ⟨List.mk_mem_enum_iff_getElem?.mpr hget, by simpa using hp⟩
  · intro u v
    cases u with
    | none => simp [omSub]
    | some a =>
        cases v with
        | none => simp [omSub]
        | some b => simp [omSub]

/-- Witness for C4: a row with one missing and one defined comparison is
kept. -/
theorem excess_table_spec_witness :
    (0, (none : Option ℚ), some (1 : ℚ)) ∈
      excess_df [some 1, none] [none, some 2] [some 0, none] := by
  have h := excess_table_spec [some 1, none] [none, some 2] [some 0, none]
    (by simp) (by simp) 0 (by simp)
  have hmem := h.1.mpr (Or.inr (by simp [omSub]))
  simpa [omSub] using hmem

/-- C6 amended: the two rolling windows of the metrics assembly are the
module-level constants ROLL_RET_WIN = 63 and ROLL_RISK_WIN = 126, not
per-call inputs: compute_pairwise_metrics takes no window argument and
always computes the spec-modelled parameterised assembly instantiated
at exactly (63, 126); only the lower-level rolling primitives take the
window per call. -/
theorem metrics_windows_amended (rets : List (String × List ℚ))
    (asset bench_a bench_b : String) :
    compute_pairwise_metrics rets asset bench_a bench_b =
      computePairwiseMetricsSpec ROLL_RET_WIN ROLL_RISK_WIN rets asset bench_a bench_b ∧
    ROLL_RET_WIN = 63 ∧ ROLL_RISK_WIN = 126 :=
  ⟨rfl, rfl, rfl⟩

/-- Counterexample to C6 as stated: the metrics produced by the code
differ from the spec-modelled assembly called with windows (1, 2), so a
caller cannot make the code compute with windows of their choice. -/
theorem metrics_windows_counterexample :
    computePairwiseMetricsSpec 1 2 [("A", [1, 2]), ("B", [1, 1]), ("C", [1, 3])]
        "A" "B" "C" ≠
      compute_pairwise_metrics [("A", [1, 2]), ("B", [1, 1]), ("C", [1, 3])]
        "A" "B" "C" := by
  intro hEq
  have hx := congrArg PairwiseMetrics.excess hEq
  have hL : (computePairwiseMetricsSpec 1 2 [("A", [1, 2]), ("B", [1, 1]), ("C", [1, 3])]
      "A" "B" "C").excess = [(0, some 0, some 0), (1, some 1, some (-1))] := by
    norm_num [computePairwiseMetricsSpec, retsCol, List.lookup, excess_df,
      rolling_period_return, omSub, windowAt, show List.range 2 = [0, 1] from rfl,
      List.filter, List.enum, List.enumFrom,
      show (("B" : String) == "A") = false from rfl,
      show (("C" : String) == "A") = false from rfl,
      show (("C" : String) == "B") = false from rfl,
      show (("A" : String) == "A") = true from rfl]
  have hR : (compute_pairwise_metrics [("A", [1, 2]), ("B", [1, 1]), ("C", [1, 3])]
      "A" "B" "C").excess = [] := by
    norm_num [compute_pairwise_metrics, retsCol, List.lookup, excess_df,
      rolling_period_return, omSub, ROLL_RET_WIN,
      show List.range 2 = [0, 1] from rfl, List.filter, List.enum, List.enumFrom,
      show (("B" : String) == "A") = false from rfl,
      show (("C" : String) == "A") = false from rfl,
      show (("C" : String) == "B") = false from rfl,
      show (("A" : String) == "A") = true from rfl]
  rw [hL, hR] at hx
  exact absurd hx (by simp)

/-- C9: when no ticker has a usable series the screening fails with the
fatal no-data error; when at least one ticker is usable, every unusable
ticker is skipped with its warning recorded, and the panel input is the
list of exactly the usable (ticker, series) pairs. -/
theorem input_screening_spec (tickers : List String)
    (raw : List (String × Option Series)) :
    ((buildPanelInput tickers raw).2 = Except.error noDataMsg ↔
      ∀ t ∈ tickers, usableSeries raw t = none) ∧
    (∀ t ∈ tickers, usableSeries raw t = none →
      warnMsg t ∈ (buildPanelInput tickers raw).1) ∧
    (∀ t ∈ tickers, ∀ s : Series, usableSeries raw t = some s →
      (buildPanelInput tickers raw).2 =
        Except.ok (tickers.filterMap
          (fun u => (usableSeries raw u).map (fun s2 => (u, s2)))) ∧
      (t, s) ∈ tickers.filterMap
        (fun u => (usableSeries raw u).map (fun s2 => (u, s2)))) := by
  refine ⟨?_, ?_, ?_⟩
  · have hchar : (buildPanelInput tickers raw).2 = Except.error noDataMsg ↔
        tickers.filterMap (fun u => (usableSeries raw u).map (fun s2 => (u, s2))) = [] := by
      unfold buildPanelInput
      by_cases hgood : (tickers.filterMap
          (fun u => (usableSeries raw u).map (fun s2 => (u, s2)))).isEmpty
      · simp only [if_pos hgood]
        simp [List.isEmpty_iff.mp hgood]
      · simp only [if_neg hgood]
        constructor
        · intro h
          exact absurd h (by simp)
        · intro h
          exfalso
          apply hgood
          rw [h]
          rfl
    rw [hchar, List.filterMap_eq_nil_iff]
    constructor
    · intro hall t htm
      have hmapnone := hall t htm
      rcases hu : usableSeries raw t with _ | s
      · rfl
      · rw [hu] at hmapnone
        simp at hmapnone
    · intro hall t htm
      rw [hall t htm]
      rfl
  · intro t htm hnone
    unfold buildPanelInput
    simp only
    apply List.mem_map.mpr
    refine ⟨t, ?_, rfl⟩
    apply List.mem_filter.mpr
    exact ⟨htm, by rw [hnone]; rfl⟩
  · intro t htm s hs
    have hmem : (t, s) ∈ tickers.filterMap
        (fun u => (usableSeries raw u).map (fun s2 => (u, s2))) := by
      apply List.mem_filterMap.mpr
      exact ⟨t, htm, by rw [hs]; rfl⟩
    refine ⟨?_, hmem⟩
    unfold buildPanelInput
    have hne : ¬ (tickers.filterMap
        (fun u => (usableSeries raw u).map (fun s2 => (u, s2)))).isEmpty := by
      intro hemp
      rw [List.isEmpty_iff] at hemp
      rw [hemp] at hmem
      simp at hmem
    simp [hne]

/-- Witness for C9: ticker B has no data and is skipped with a warning,
while processing continues with ticker A alone. -/
theorem input_screening_spec_witness :
    warnMsg ("B") ∈ (buildPanelInput ["A", "B"] [("A", some [(1, (2 : ℚ))])]).1 ∧
    (buildPanelInput ["A", "B"] [("A", some [(1, (2 : ℚ))])]).2 =
      Except.ok [("A", [(1, (2 : ℚ))])] := by
  have h := input_screening_spec ["A", "B"] [("A", some [(1, (2 : ℚ))])]
  have husable : usableSeries [("A", some [(1, (2 : ℚ))])] ("A") = some [(1, (2 : ℚ))] := by
    simp [usableSeries, List.lookup]
  have hnone : usableSeries [("A", some [(1, (2 : ℚ))])] ("B") = none := by
    simp [usableSeries, List.lookup]
  refine ⟨h.2.1 ("B") (by simp) hnone, ?_⟩
  have h3 := h.2.2 ("A") (by simp) [(1, (2 : ℚ))] husable
  rw [h3.1]
  simp [List.filterMap, husable, hnone]

end SecuritiesAnalysis
